import Mathlib

/-!
Verification of the musio-app feed/search aggregation engine.

The definitions below are a shallow embedding of the code in
src/apps/api/src/services/metadata-service.ts (PostService), in
src/apps/api/src/routes/search.ts (searchRoutes) and of the interaction toggle
protocol.  Database tables are lists of rows; SQL strings are Lean strings and
SQL text comparison is lexicographic comparison of their character lists; SQL
queries are filter/join/sort/take pipelines over the row lists.
-/

namespace Musio

/-! ## Generic string helpers (JavaScript split / trim / toLowerCase) -/

/-- Splitting a character list at every occurrence of a separator character, as
JavaScript String.split with a one-character separator does.  The accumulator
holds the characters of the current field in reverse. -/
def splitChar (sep : Char) : List Char → List Char → List (List Char)
  | acc, [] => [acc.reverse]
  | acc, c :: cs =>
    if c = sep then acc.reverse :: splitChar sep [] cs else splitChar sep (c :: acc) cs

/-- JavaScript s.split(sep) for a one-character separator, on Lean strings. -/
def jsSplit (sep : Char) (s : String) : List String :=
  (splitChar sep [] s.data).map fun cs => ⟨cs⟩

/-- JavaScript String.toLowerCase, character by character. -/
def lowerChars (cs : List Char) : List Char := cs.map Char.toLower

/-- JavaScript String.trim: drop whitespace from both ends. -/
def trimChars (cs : List Char) : List Char :=
  ((cs.dropWhile Char.isWhitespace).reverse.dropWhile Char.isWhitespace).reverse

/-- Does the needle occur starting at the head of the haystack? -/
def matchesAt : List Char → List Char → Bool
  | [], _ => true
  | _ :: _, [] => false
  | n :: ns, h :: hs => n == h && matchesAt ns hs

/-- Does the needle occur anywhere in the haystack? -/
def containsSeq (needle : List Char) : List Char → Bool
  | [] => needle.isEmpty
  | c :: hs => matchesAt needle (c :: hs) || containsSeq needle hs

/-- SQL ilike with wildcards on both sides: case-insensitive substring test. -/
def ilikeContains (hay : String) (q : String) : Bool :=
  containsSeq (lowerChars q.data) (lowerChars hay.data)

/-- Lookup in an association list with a default, the shape of the JavaScript
Map.get(k) fallbacks (likeCountMap.get(postId) with a zero default and
countsAndInteractions.get(post.id) with a default record) in
metadata-service.ts. -/
def assocGetD {β : Type} : List (String × β) → String → β → β
  | [], _, d => d
  | (k, v) :: rest, k0, d => if k = k0 then v else assocGetD rest k0 d

/-! ## Data model: table rows (packages/shared/src/db/types.ts) -/

structure Post where
  id : String
  user_id : String
  title : String
  caption : Option String
  duration_ms : Option Int
  bpm : Option Int
  key : Option String
  visibility : String
  ready : Bool
  video_url : Option String
  cover_url : Option String
  artist_name : Option String
  created_at : String
deriving DecidableEq

structure User where
  id : String
  name : Option String
  avatar_url : Option String
deriving DecidableEq

structure MediaFile where
  post_id : String
  url : String
  type : String
deriving DecidableEq

structure TagRow where
  id : Nat
  name : String
  normalized : String
deriving DecidableEq

structure PostTagRow where
  post_id : String
  tag_id : Nat
deriving DecidableEq

/-- A likes, reposts or bookmarks row: these three tables all consist of a
(user_id, post_id) pair. -/
structure InteractionRow where
  user_id : String
  post_id : String
deriving DecidableEq

structure CommentRow where
  id : String
  post_id : String
  user_id : String
deriving DecidableEq

structure AnalyticsRow where
  post_id : String
  plays : Nat
deriving DecidableEq

structure FollowRow where
  follower_id : String
  followee_id : String
deriving DecidableEq

/-- The database: one list of rows per table touched by the feed/search engine. -/
structure DB where
  posts : List Post
  users : List User
  media_files : List MediaFile
  tags : List TagRow
  post_tags : List PostTagRow
  likes : List InteractionRow
  reposts : List InteractionRow
  bookmarks : List InteractionRow
  comments : List CommentRow
  analytics : List AnalyticsRow
  follows : List FollowRow
deriving DecidableEq

/-! ## Feed eligibility, joins and ordering -/

/-- The two WHERE clauses shared by feed and search:
ready = true AND visibility = public. -/
def eligible (p : Post) : Bool := p.ready && p.visibility == "public"

/-- One output row of the posts query after its three left joins. -/
structure FeedRow where
  post : Post
  user : Option User
  preview : Option MediaFile
  waveform : Option MediaFile
deriving DecidableEq

/-- SQL LEFT JOIN match set for one left row: one output per matching right
row, or a single null row when nothing matches. -/
def leftMatches {β : Type} (rs : List β) : List (Option β) :=
  match rs with
  | [] => [none]
  | rs => rs.map some

/-- The joined relation of the feed/search base query: posts left-joined with
users on u.id = p.user_id and with media_files twice, once scoped to
type = preview and once to type = waveform_json. -/
def joinedRows (db : DB) : List FeedRow :=
  db.posts.flatMap fun p =>
    (leftMatches (db.users.filter fun u => u.id == p.user_id)).flatMap fun u =>
      (leftMatches (db.media_files.filter fun m =>
          m.post_id == p.id && m.type == "preview")).flatMap fun pv =>
        (leftMatches (db.media_files.filter fun m =>
            m.post_id == p.id && m.type == "waveform_json")).map fun wf =>
          { post := p, user := u, preview := pv, waveform := wf }

/-- The sort key of a row: its (created_at, id) pair, as character lists since
SQL compares the two text columns lexicographically. -/
def rowKey (r : FeedRow) : List Char × List Char := (r.post.created_at.data, r.post.id.data)

/-- Lexicographic strict order on (created_at, id) keys.  This is literally the
shape of the keyset predicate in the source:
created_at < C.created_at OR (created_at = C.created_at AND id < C.id). -/
def keyLt (a b : List Char × List Char) : Prop :=
  a.1 < b.1 ∨ (a.1 = b.1 ∧ a.2 < b.2)

instance keyLt.instDecidable : ∀ a b, Decidable (keyLt a b) := fun a b => by
  unfold keyLt; infer_instance

/-- ORDER BY created_at DESC, id DESC: row a may be listed before row b. -/
def feedBefore (a b : FeedRow) : Prop :=
  keyLt (rowKey b) (rowKey a) ∨ rowKey a = rowKey b

instance feedBefore.instDecidable : DecidableRel feedBefore := fun a b => by
  unfold feedBefore; infer_instance

/-- The ORDER BY stage: sort the filtered rows by (created_at DESC, id DESC). -/
def sortRows (rows : List FeedRow) : List FeedRow := List.insertionSort feedBefore rows

/-! ## Cursor codec -/

/-- Encoding of the next-page cursor from the last row of a full page, exactly
the template string of the source: created_at, a pipe, and the id. -/
def encodeCursor (r : FeedRow) : String := r.post.created_at ++ "|" ++ r.post.id

/-- Decoding of a client cursor, as the source destructures it:
const [createdAt, id] = cursor.split(pipe).  The first split component is
always present; the second is undefined (none) when the cursor has no
separator, and any components beyond the second are silently dropped. -/
def decodeCursor (cursor : String) : String × Option String :=
  let parts := jsSplit '|' cursor
  (parts.headD "", parts[1]?)

/-- The keyset WHERE clause added when a cursor is supplied:
created_at < createdAt OR (created_at = createdAt AND id < id).  When the
decoded id is undefined the SQL comparison id < NULL never holds, so only the
first disjunct can keep a row. -/
def cursorKeep (cursor : String) (r : FeedRow) : Bool :=
  match decodeCursor cursor with
  | (cAt, some cid) => decide (keyLt (rowKey r) (cAt.data, cid.data))
  | (cAt, none) => decide (r.post.created_at.data < cAt.data)

/-- Apply the optional cursor WHERE clause. -/
def applyCursor (rows : List FeedRow) : Option String → List FeedRow
  | none => rows
  | some c => rows.filter (cursorKeep c)

/-- nextCursor is the encoding of the last row iff a full nonempty page was
returned (results.length === limit && results.length > 0). -/
def nextCursorOf (rows : List FeedRow) (limit : Nat) : Option String :=
  if rows.length = limit ∧ 0 < rows.length then rows.getLast?.map encodeCursor else none

/-! ## Feed query (PostService.getPostsFeed, metadata-service.ts 815-898) -/

/-- The WHERE stage of the feed query: eligibility plus, for
filter = following with a logged-in user, the inner join against follows.
A follows row is unique per (follower, followee) pair, so the inner join is a
membership filter. -/
def feedBaseRows (db : DB) (userId : Option String) (filter : Option String) : List FeedRow :=
  let rows := (joinedRows db).filter fun r => eligible r.post
  match filter, userId with
  | some "following", some uid =>
    rows.filter fun r => db.follows.any fun fo =>
      fo.follower_id == uid && fo.followee_id == r.post.user_id
  | _, _ => rows

/-- The raw rows returned by the feed query: WHERE (eligibility, audience,
cursor), then ORDER BY created_at DESC, id DESC, then LIMIT. -/
def feedQueryRows (db : DB) (userId : Option String) (filter : Option String)
    (cursor : Option String) (limit : Nat) : List FeedRow :=
  (sortRows (applyCursor (feedBaseRows db userId filter) cursor)).take limit

/-! ## Batch aggregation (PostService.getPostCountsAndUserActions, 541-632) -/

structure PostCounts where
  likes : Nat
  comments : Nat
  reposts : Nat
  plays : Nat
deriving DecidableEq

/-- One value of the map returned by getPostCountsAndUserActions. -/
structure AggEntry where
  likes : Nat
  comments : Nat
  reposts : Nat
  plays : Nat
  isLikedByMe : Bool
  isRepostedByMe : Bool
  isBookmarkedByMe : Bool
deriving DecidableEq

/-- The record pre-seeded for every post id (and the fallback used by
enrichPosts when an id is missing from the map). -/
def defaultAgg : AggEntry :=
  { likes := 0, comments := 0, reposts := 0, plays := 0,
    isLikedByMe := false, isRepostedByMe := false, isBookmarkedByMe := false }

/-- SQL SELECT post_id, agg(v) ... GROUP BY post_id over (post_id, v) pairs:
one output row per distinct key, carrying the sum of the values of its group
(counts are sums of 1 per row, the play count sums the plays column). -/
def groupBySum (rows : List (String × Nat)) : List (String × Nat) :=
  ((rows.map Prod.fst).dedup).map fun k =>
    (k, ((rows.filter fun r => r.1 == k).map Prod.snd).sum)

/-- The batch aggregator.  Returns the association list of the result map in
input order together with the number of queries issued: zero for an empty id
list (early return before any query), otherwise four grouped count queries
plus, when a viewer is present, three interaction-membership queries. -/
def getPostCountsAndUserActions (db : DB) (postIds : List String) (userId : Option String) :
    List (String × AggEntry) × Nat :=
  if postIds.isEmpty then ([], 0) else
  let inIds : String → Bool := fun pid => postIds.contains pid
  let likeCounts := groupBySum ((db.likes.filter fun r => inIds r.post_id).map fun r => (r.post_id, 1))
  let commentCounts := groupBySum ((db.comments.filter fun r => inIds r.post_id).map fun r => (r.post_id, 1))
  let repostCounts := groupBySum ((db.reposts.filter fun r => inIds r.post_id).map fun r => (r.post_id, 1))
  let playCounts := groupBySum ((db.analytics.filter fun r => inIds r.post_id).map fun r => (r.post_id, r.plays))
  let likedIds : List String := match userId with
    | some uid => (db.likes.filter fun r => r.user_id == uid && inIds r.post_id).map (·.post_id)
    | none => []
  let repostedIds : List String := match userId with
    | some uid => (db.reposts.filter fun r => r.user_id == uid && inIds r.post_id).map (·.post_id)
    | none => []
  let bookmarkedIds : List String := match userId with
    | some uid => (db.bookmarks.filter fun r => r.user_id == uid && inIds r.post_id).map (·.post_id)
    | none => []
  let entries := postIds.map fun pid =>
    (pid,
      { likes := assocGetD likeCounts pid 0
        comments := assocGetD commentCounts pid 0
        reposts := assocGetD repostCounts pid 0
        plays := assocGetD playCounts pid 0
        isLikedByMe := likedIds.contains pid
        isRepostedByMe := repostedIds.contains pid
        isBookmarkedByMe := bookmarkedIds.contains pid })
  (entries, 4 + match userId with | some _ => 3 | none => 0)

/-! ## Enrichment (PostService.enrichPosts, 477-536) -/

/-- The user subobject built by the feed transform; every field may be null
because the users join is a left join. -/
structure UserRef where
  id : Option String
  name : Option String
  avatar_url : Option String
deriving DecidableEq

/-- One element of the transformedPosts array of getPostsFeed (lines 866-884):
the selected columns plus the nested user object. -/
structure TransformedPost where
  id : String
  title : String
  caption : Option String
  artist_name : Option String
  duration_ms : Option Int
  bpm : Option Int
  key : Option String
  video_url : Option String
  cover_url : Option String
  created_at : String
  preview_url : Option String
  waveform_url : Option String
  user : UserRef
deriving DecidableEq

def transformRow (r : FeedRow) : TransformedPost :=
  { id := r.post.id
    title := r.post.title
    caption := r.post.caption
    artist_name := r.post.artist_name
    duration_ms := r.post.duration_ms
    bpm := r.post.bpm
    key := r.post.key
    video_url := r.post.video_url
    cover_url := r.post.cover_url
    created_at := r.post.created_at
    preview_url := r.preview.map (·.url)
    waveform_url := r.waveform.map (·.url)
    user :=
      { id := r.user.map (·.id)
        name := r.user.bind (·.name)
        avatar_url := r.user.bind (·.avatar_url) } }

/-- One enriched item: the object spread keeps every field of the input row
(the base) and adds counts, tags, the three viewer flags and the defaulted
columns.  The input rows of getPostsFeed carry no updated_at, ready,
visibility, youtube_id or source_type field, so the defaults apply:
updated_at falls back to created_at, ready to true, visibility to public and
source_type to user. -/
structure EnrichedPost where
  base : TransformedPost
  counts : PostCounts
  tags : List String
  isLikedByMe : Bool
  isRepostedByMe : Bool
  isBookmarkedByMe : Bool
  updated_at : String
  ready : Bool
  visibility : String
  source_type : String
deriving DecidableEq

/-- PostService.enrichPosts: early return on an empty list, one aggregator
call for the whole id list, one tag query grouped in row order, then one
output per input row by id lookup. -/
def enrichPosts (db : DB) (posts : List TransformedPost) (userId : Option String) :
    List EnrichedPost :=
  if posts.isEmpty then [] else
  let postIds := posts.map (·.id)
  let agg := (getPostCountsAndUserActions db postIds userId).1
  let postTagPairs := (db.post_tags.filter fun pt => postIds.contains pt.post_id).flatMap
    fun pt => (db.tags.filter fun t => t.id == pt.tag_id).map fun t => (pt.post_id, t.name)
  posts.map fun post =>
    let e := assocGetD agg post.id defaultAgg
    { base := post
      counts := { likes := e.likes, comments := e.comments, reposts := e.reposts, plays := e.plays }
      tags := (postTagPairs.filter fun pr => pr.1 == post.id).map Prod.snd
      isLikedByMe := e.isLikedByMe
      isRepostedByMe := e.isRepostedByMe
      isBookmarkedByMe := e.isBookmarkedByMe
      updated_at := post.created_at
      ready := true
      visibility := "public"
      source_type := "user" }

/-- PostService.getPostsFeed: query, transform, enrich, and compute the next
cursor from the raw row list. -/
def getPostsFeed (db : DB) (limit : Nat) (cursor : Option String) (userId : Option String)
    (filter : Option String) : List EnrichedPost × Option String :=
  let rows := feedQueryRows db userId filter cursor limit
  (enrichPosts db (rows.map transformRow) userId, nextCursorOf rows limit)

/-! ## Search (searchRoutes, search.ts 30-118) -/

/-- JavaScript truthiness of an optional string parameter: an absent or empty
string counts as not supplied (both the q and tags guards are plain truthiness
tests in the handler). -/
def presentParam : Option String → Option String
  | some s => if s = "" then none else some s
  | none => none

/-- tags.split(',').map(tag =&gt; tag.trim().toLowerCase()). -/
def parseTags (tags : String) : List String :=
  (splitChar ',' [] tags.data).map fun cs => ⟨lowerChars (trimChars cs)⟩

/-- The free-text WHERE clause: title ilike, OR caption ilike, OR user name
ilike; a null caption or a missing joined user row never matches. -/
def textKeep (q : String) (r : FeedRow) : Bool :=
  ilikeContains r.post.title q ||
    (match r.post.caption with | some c => ilikeContains c q | none => false) ||
    (match r.user.bind (·.name) with | some n => ilikeContains n q | none => false)

/-- The post_tags join with tags (pt.post_id = p.id, t.id = pt.tag_id) for one
post. -/
def postTagJoin (db : DB) (pid : String) : List TagRow :=
  (db.post_tags.filter fun pt => pt.post_id == pid).flatMap fun pt =>
    db.tags.filter fun t => t.id == pt.tag_id

/-- The number of joined tag rows of a post that survive
WHERE t.normalized IN tagList.  Grouping is by
(p.id, u.id, preview.url, waveform.url), so with one joined row per post this
is the count the HAVING clause compares. -/
def matchedTagCount (db : DB) (tagList : List String) (pid : String) : Nat :=
  ((postTagJoin db pid).filter fun t => tagList.contains t.normalized).length

/-- HAVING count(*) &gt;= tagList.length.  A post with no matching tag row is
already eliminated by the WHERE clause; since a supplied tags parameter always
parses to at least one entry, the HAVING comparison subsumes that case. -/
def tagKeep (db : DB) (tagList : List String) (r : FeedRow) : Bool :=
  decide (tagList.length ≤ matchedTagCount db tagList r.post.id)

/-- The full WHERE/HAVING predicate of the search query. -/
def searchFilter (db : DB) (q : Option String) (tagList : Option (List String))
    (r : FeedRow) : Bool :=
  eligible r.post &&
    (match q with | some qs => textKeep qs r | none => true) &&
    (match tagList with | some ts => tagKeep db ts r | none => true)

/-- One item of the search response (SearchResponseSchema, search.ts 12-28):
the selected columns, returned raw. -/
structure SearchItem where
  id : String
  title : String
  caption : Option String
  created_at : String
  duration_ms : Option Int
  user_id : Option String
  user_name : Option String
  user_avatar_url : Option String
  preview_url : Option String
  waveform_url : Option String
deriving DecidableEq

def projectSearchItem (r : FeedRow) : SearchItem :=
  { id := r.post.id
    title := r.post.title
    caption := r.post.caption
    created_at := r.post.created_at
    duration_ms := r.post.duration_ms
    user_id := r.user.map (·.id)
    user_name := r.user.bind (·.name)
    user_avatar_url := r.user.bind (·.avatar_url)
    preview_url := r.preview.map (·.url)
    waveform_url := r.waveform.map (·.url) }

/-- The raw rows of the search query: eligibility, optional text filter,
optional tag intersection filter, optional cursor, then ORDER BY and LIMIT. -/
def searchRows (db : DB) (q tags : Option String) (cursor : Option String)
    (limit : Nat) : List FeedRow :=
  let tagList := (presentParam tags).map parseTags
  let rows := (joinedRows db).filter (searchFilter db (presentParam q) tagList)
  (sortRows (applyCursor rows cursor)).take limit

/-- The GET /api/search handler: its only client-error response is the 400 for
a request supplying neither q nor tags; otherwise it returns the raw rows and
the next cursor. -/
def searchHandler (db : DB) (q tags : Option String) (limit : Nat)
    (cursor : Option String) : Except String (List SearchItem × Option String) :=
  if presentParam q = none ∧ presentParam tags = none then
    .error "Either q or tags parameter is required"
  else
    let rows := searchRows db q tags cursor limit
    .ok (rows.map projectSearchItem, nextCursorOf rows limit)

/-- Field names of one item of SearchResponseSchema (search.ts lines 12-28). -/
def searchResponseItemFields : List String :=
  ["id", "title", "caption", "duration_ms", "user_id", "user_name",
   "user_avatar_url", "preview_url", "waveform_url", "created_at"]

/-- Field names of one item of FeedResponseSchema
(src/apps/api/src/schemas/posts.ts lines 62-90). -/
def feedResponseItemFields : List String :=
  ["id", "title", "caption", "artist_name", "duration_ms", "bpm", "key",
   "video_url", "cover_url", "user", "counts", "tags", "created_at"]

/-! ## Interaction toggle -/

/-- Modelled from the spec: the like/repost/bookmark toggle route
implementation is code of this repository that is not under src (only its
tests, in src/unnamed/part_002 lines 215-301, are).  Spec section 4.6: the
handler reads whether a (user, post) row exists, deletes it when present and
inserts it when absent, and returns the new boolean together with the updated
total count of the relation for the post. -/
def toggleInteraction (rows : List InteractionRow) (uid pid : String) :
    Bool × Nat × List InteractionRow :=
  if rows.any fun r => r.user_id == uid && r.post_id == pid then
    let rows1 := rows.filter fun r => !(r.user_id == uid && r.post_id == pid)
    (false, (rows1.filter fun r => r.post_id == pid).length, rows1)
  else
    let rows1 := rows ++ [{ user_id := uid, post_id := pid }]
    (true, (rows1.filter fun r => r.post_id == pid).length, rows1)

/-! ## Iterated feed pagination -/

/-- The full ordered eligible row list: the feed base query sorted, with no
cursor and no limit applied. -/
def feedSorted (db : DB) : List FeedRow :=
  sortRows ((joinedRows db).filter fun r => eligible r.post)

/-- A client walking the feed: fetch a page, follow nextCursor while it is
non-null.  The fuel bounds the number of requests. -/
def feedWalk (db : DB) (limit : Nat) : Nat → Option String → List (List FeedRow)
  | 0, _ => []
  | fuel + 1, cursor =>
    let page := feedQueryRows db none none cursor limit
    page :: (match nextCursorOf page limit with
      | none => []
      | some c => feedWalk db limit fuel (some c))

/-- All pages a client sees starting from the first request. -/
def feedAllPages (db : DB) (limit : Nat) : List (List FeedRow) :=
  feedWalk db limit ((feedSorted db).length + 1) none

/-! ## Concrete databases and helper values used by the claim witnesses -/

/-! ## A concrete database: post A tagged house and techno, post B tagged
house only, one user, both posts ready and public. -/

def postA : Post :=
  { id := "A", user_id := "u1", title := "Test Track A", caption := none,
    duration_ms := none, bpm := none, key := none, visibility := "public",
    ready := true, video_url := none, cover_url := none, artist_name := none,
    created_at := "2" }

def postB : Post :=
  { id := "B", user_id := "u1", title := "Test Track B", caption := none,
    duration_ms := none, bpm := none, key := none, visibility := "public",
    ready := true, video_url := none, cover_url := none, artist_name := none,
    created_at := "1" }

def dbDuo : DB :=
  { posts := [postA, postB]
    users := [{ id := "u1", name := some "Alice", avatar_url := none }]
    media_files := []
    tags := [{ id := 1, name := "house", normalized := "house" },
             { id := 2, name := "techno", normalized := "techno" }]
    post_tags := [{ post_id := "A", tag_id := 1 }, { post_id := "A", tag_id := 2 },
                  { post_id := "B", tag_id := 1 }]
    likes := [{ user_id := "u1", post_id := "A" }]
    reposts := []
    bookmarks := []
    comments := []
    analytics := [{ post_id := "A", plays := 5 }]
    follows := [] }

/-- The aggregate entry built for one post id by the merge loop of
getPostCountsAndUserActions. -/
def aggEntryFor (db : DB) (postIds : List String) (userId : Option String)
    (pid : String) : AggEntry :=
  { likes := assocGetD (groupBySum ((db.likes.filter fun r =>
      postIds.contains r.post_id).map fun r => (r.post_id, 1))) pid 0
    comments := assocGetD (groupBySum ((db.comments.filter fun r =>
      postIds.contains r.post_id).map fun r => (r.post_id, 1))) pid 0
    reposts := assocGetD (groupBySum ((db.reposts.filter fun r =>
      postIds.contains r.post_id).map fun r => (r.post_id, 1))) pid 0
    plays := assocGetD (groupBySum ((db.analytics.filter fun r =>
      postIds.contains r.post_id).map fun r => (r.post_id, r.plays))) pid 0
    isLikedByMe := ((match userId with
      | some uid => (db.likes.filter fun r =>
          r.user_id == uid && postIds.contains r.post_id).map (·.post_id)
      | none => [] : List String)).contains pid
    isRepostedByMe := ((match userId with
      | some uid => (db.reposts.filter fun r =>
          r.user_id == uid && postIds.contains r.post_id).map (·.post_id)
      | none => [] : List String)).contains pid
    isBookmarkedByMe := ((match userId with
      | some uid => (db.bookmarks.filter fun r =>
          r.user_id == uid && postIds.contains r.post_id).map (·.post_id)
      | none => [] : List String)).contains pid }

/-- The row inserted by a toggle. -/
def mkRow (uid pid : String) : InteractionRow := { user_id := uid, post_id := pid }

/-- The predicate of the toggle's read and delete paths: the row belongs to
this (user, post) pair. -/
def isPair (uid pid : String) (r : InteractionRow) : Bool :=
  r.user_id == uid && r.post_id == pid

def dummyEnriched : EnrichedPost :=
  { base :=
      { id := "", title := "", caption := none, artist_name := none,
        duration_ms := none, bpm := none, key := none, video_url := none,
        cover_url := none, created_at := "", preview_url := none,
        waveform_url := none,
        user := { id := none, name := none, avatar_url := none } }
    counts := { likes := 0, comments := 0, reposts := 0, plays := 0 }
    tags := [], isLikedByMe := false, isRepostedByMe := false,
    isBookmarkedByMe := false, updated_at := "", ready := true,
    visibility := "public", source_type := "user" }

def dummyFeedRow : FeedRow := { post := postA, user := none, preview := none, waveform := none }

def dbFive : DB :=
  { posts :=
      [ { id := "1", user_id := "u1", title := "Test Track 0", caption := none,
          duration_ms := none, bpm := none, key := none, visibility := "public",
          ready := true, video_url := none, cover_url := none, artist_name := none,
          created_at := "t1" },
        { id := "2", user_id := "u1", title := "Test Track 1", caption := none,
          duration_ms := none, bpm := none, key := none, visibility := "public",
          ready := true, video_url := none, cover_url := none, artist_name := none,
          created_at := "t2" },
        { id := "3", user_id := "u1", title := "Test Track 2", caption := none,
          duration_ms := none, bpm := none, key := none, visibility := "public",
          ready := true, video_url := none, cover_url := none, artist_name := none,
          created_at := "t3" },
        { id := "4", user_id := "u1", title := "Test Track 3", caption := none,
          duration_ms := none, bpm := none, key := none, visibility := "public",
          ready := true, video_url := none, cover_url := none, artist_name := none,
          created_at := "t4" },
        { id := "5", user_id := "u1", title := "Test Track 4", caption := none,
          duration_ms := none, bpm := none, key := none, visibility := "public",
          ready := true, video_url := none, cover_url := none, artist_name := none,
          created_at := "t5" } ]
    users := [{ id := "u1", name := some "Alice", avatar_url := none }]
    media_files := [], tags := [], post_tags := [], likes := [], reposts := []
    bookmarks := [], comments := [], analytics := [], follows := [] }

/-! ## Order lemmas for the (created_at DESC, id DESC) key -/

theorem keyLt_trans {a b c : List Char × List Char} (h1 : keyLt a b) (h2 : keyLt b c) :
    keyLt a c := by
  rcases h1 with h1 | ⟨e1, h1⟩ <;> rcases h2 with h2 | ⟨e2, h2⟩
  · exact Or.inl (lt_trans h1 h2)
  · exact Or.inl (e2 ▸ h1)
  · exact Or.inl (e1 ▸ h2)
  · exact Or.inr ⟨e1.trans e2, lt_trans h1 h2⟩

theorem keyLt_irrefl (a : List Char × List Char) : ¬ keyLt a a := by
  rintro (h | ⟨_, h⟩) <;> exact lt_irrefl _ h

theorem keyLt_asymm {a b : List Char × List Char} (h1 : keyLt a b) (h2 : keyLt b a) : False :=
  keyLt_irrefl a (keyLt_trans h1 h2)

theorem keyLt_connex {a b : List Char × List Char} (h : a ≠ b) : keyLt a b ∨ keyLt b a := by
  rcases lt_trichotomy a.1 b.1 with h1 | h1 | h1
  · exact Or.inl (Or.inl h1)
  · rcases lt_trichotomy a.2 b.2 with h2 | h2 | h2
    · exact Or.inl (Or.inr ⟨h1, h2⟩)
    · exfalso; apply h; obtain ⟨a1, a2⟩ := a; obtain ⟨b1, b2⟩ := b; simp_all
    · exact Or.inr (Or.inr ⟨h1.symm, h2⟩)
  · exact Or.inr (Or.inl h1)

instance feedBefore.isTrans : IsTrans FeedRow feedBefore := by
  constructor
  intro a b c h1 h2
  rcases h1 with h1 | h1 <;> rcases h2 with h2 | h2
  · exact Or.inl (keyLt_trans h2 h1)
  · exact Or.inl (h2 ▸ h1)
  · exact Or.inl (h1 ▸ h2)
  · exact Or.inr (h1.trans h2)

instance feedBefore.isTotal : IsTotal FeedRow feedBefore := by
  constructor
  intro a b
  by_cases h : rowKey a = rowKey b
  · exact Or.inl (Or.inr h)
  · rcases keyLt_connex h with h1 | h1
    · exact Or.inr (Or.inl h1)
    · exact Or.inl (Or.inl h1)

/-! ## Enrichment preserves the base rows -/

theorem enrichPosts_map_base (db : DB) (posts : List TransformedPost) (userId : Option String) :
    (enrichPosts db posts userId).map EnrichedPost.base = posts := by
  unfold enrichPosts
  by_cases h : posts.isEmpty
  · simp [h, List.isEmpty_iff.mp h]
  · simp only [h, Bool.false_eq_true, if_false, List.map_map]
    conv_rhs => rw [← List.map_id posts]
    exact List.map_congr_left fun a _ => rfl

theorem enrichPosts_length (db : DB) (posts : List TransformedPost) (userId : Option String) :
    (enrichPosts db posts userId).length = posts.length := by
  have h := congrArg List.length (enrichPosts_map_base db posts userId)
  simpa using h

/-- C10.  Enrichment is order-, length-, and content-preserving: enrichPosts
returns exactly one output item per input row, in the same order, and the base
of the i-th output is the unchanged i-th input row — mapping every output back
to its base reproduces the input list, so enrichment only adds counts, tags
and viewer flags and never drops, reorders or rewrites rows. -/
theorem c10_enrichment_preserves_rows (db : DB) (posts : List TransformedPost)
    (userId : Option String) :
    (enrichPosts db posts userId).map EnrichedPost.base = posts ∧
      (enrichPosts db posts userId).length = posts.length :=
  ⟨enrichPosts_map_base db posts userId, enrichPosts_length db posts userId⟩

/-- C5.  The code drops a result when the same tag is requested twice: with
post A tagged house and techno and post B tagged house, the request
tags=house,house returns no items at all, while tags=house returns both posts.
The required HAVING count is the length of the raw split list (2), but each
post has at most one joined row with normalized = house, so every post is
excluded; duplicate requested tags therefore do change search results,
contradicting the claim, and the spec itself flags the missing
de-duplication as a defect. -/
theorem c5_code_bug_duplicate_tags_change_results :
    ((searchHandler dbDuo none (some "house,house") 20 none).toOption.map
        fun p => p.1.map SearchItem.id) = some [] ∧
      ((searchHandler dbDuo none (some "house") 20 none).toOption.map
        fun p => p.1.map SearchItem.id) = some ["A", "B"] ∧
      (parseTags "house,house").length = 2 ∧
      matchedTagCount dbDuo (parseTags "house,house") "A" = 1 := by
  decide

/-- C6, counterexample.  Search items are not enriched: the search response
schema exposes only the raw selected columns and has no counts, tags or
viewer-state fields, unlike the feed response schema, and on a concrete
database the search endpoint returns exactly the raw projected row. -/
theorem c6_counterexample_search_items_not_enriched :
    "counts" ∉ searchResponseItemFields ∧
      "tags" ∉ searchResponseItemFields ∧
      "isLikedByMe" ∉ searchResponseItemFields ∧
      "counts" ∈ feedResponseItemFields ∧
      "tags" ∈ feedResponseItemFields ∧
      ((searchHandler dbDuo none (some "techno") 20 none).toOption.map fun p => p.1) =
        some [{ id := "A", title := "Test Track A", caption := none, created_at := "2",
                duration_ms := none, user_id := some "u1", user_name := some "Alice",
                user_avatar_url := none, preview_url := none, waveform_url := none }] := by
  decide

/-- C6, amended.  Search results are ordered and paginated exactly as feed
results (same base query combinators, same cursor rule), but they are not
passed through enrichPosts: the returned items are the raw projected rows of
the query, and the search response schema carries no counts, tags or
viewer-state fields while the feed response schema does. -/
theorem c6_amended_search_returns_raw_rows (db : DB) (q tags : Option String)
    (limit : Nat) (cursor : Option String) (items : List SearchItem)
    (next : Option String)
    (h : searchHandler db q tags limit cursor = .ok (items, next)) :
    items = (searchRows db q tags cursor limit).map projectSearchItem ∧
      next = nextCursorOf (searchRows db q tags cursor limit) limit ∧
      "counts" ∉ searchResponseItemFields ∧
      "isLikedByMe" ∉ searchResponseItemFields ∧
      "counts" ∈ feedResponseItemFields := by
  unfold searchHandler at h
  by_cases hc : presentParam q = none ∧ presentParam tags = none
  · simp [hc] at h
  · simp only [hc, if_false, Except.ok.injEq, Prod.mk.injEq] at h
    exact ⟨h.1.symm, h.2.symm, by decide, by decide, by decide⟩

/-- C6, amended, witness at a concrete input. -/
theorem c6_amended_witness :
    (searchRows dbDuo none (some "house") none 20).map projectSearchItem =
        (searchRows dbDuo none (some "house") none 20).map projectSearchItem ∧
      nextCursorOf (searchRows dbDuo none (some "house") none 20) 20 =
        nextCursorOf (searchRows dbDuo none (some "house") none 20) 20 ∧
      "counts" ∉ searchResponseItemFields ∧
      "isLikedByMe" ∉ searchResponseItemFields ∧
      "counts" ∈ feedResponseItemFields :=
  c6_amended_search_returns_raw_rows dbDuo none (some "house") 20 none
    ((searchRows dbDuo none (some "house") none 20).map projectSearchItem)
    (nextCursorOf (searchRows dbDuo none (some "house") none 20) 20) rfl

/-- C7, counterexample.  A cursor with more than two separator-split parts is
not rejected: the request proceeds (no client error), the first two components
are used as the boundary and everything after the second is silently ignored,
so the request behaves exactly as if the cursor were a|b. -/
theorem c7_counterexample_extra_cursor_parts_not_rejected :
    (searchHandler dbDuo (some "track") none 20 (some "a|b|c")).isOk = true ∧
      (searchHandler dbDuo (some "track") none 20 (some "a|b|c")).toOption =
        (searchHandler dbDuo (some "track") none 20 (some "a|b")).toOption ∧
      decodeCursor "a|b|c" = ("a", some "b") := by
  decide

/-- C7, amended.  Malformed cursors are never surfaced as client errors: the
search handler errors exactly when neither q nor tags is supplied, and for any
cursor string whatsoever (however many separator parts it has) the request
proceeds with the destructured first two components as the boundary. -/
theorem c7_amended_no_cursor_rejection (db : DB) (q tags : Option String)
    (limit : Nat) (cursor : Option String) :
    (searchHandler db q tags limit cursor).isOk = true ↔
      ¬(presentParam q = none ∧ presentParam tags = none) := by
  unfold searchHandler
  by_cases hc : presentParam q = none ∧ presentParam tags = none
  · simp [hc, Except.isOk, Except.toBool]
  · simp [hc, Except.isOk, Except.toBool]

/-! ## Page size and next-cursor postconditions -/

theorem nextCursorOf_isSome (rows : List FeedRow) (limit : Nat) (hL : 1 ≤ limit) :
    (nextCursorOf rows limit).isSome = true ↔ rows.length = limit := by
  unfold nextCursorOf
  by_cases h : rows.length = limit ∧ 0 < rows.length
  · have hne : rows ≠ [] := List.length_pos.mp h.2
    rw [if_pos h]
    simp [Option.isSome_map, List.getLast?_isSome, hne, h.1]
  · rw [if_neg h]
    simp only [Option.isSome_none, Bool.false_eq_true, false_iff]
    intro hlen
    exact h ⟨hlen, lt_of_lt_of_le Nat.zero_lt_one (hlen ▸ hL)⟩

theorem nextCursorOf_eq_encode (rows : List FeedRow) (limit : Nat)
    (hlen : rows.length = limit) (hL : 1 ≤ limit) :
    nextCursorOf rows limit = rows.getLast?.map encodeCursor := by
  unfold nextCursorOf
  rw [if_pos ⟨hlen, lt_of_lt_of_le Nat.zero_lt_one (hlen ▸ hL)⟩]

theorem getPostsFeed_items_length (db : DB) (limit : Nat) (cursor : Option String)
    (userId : Option String) (filter : Option String) :
    (getPostsFeed db limit cursor userId filter).1.length =
      (feedQueryRows db userId filter cursor limit).length := by
  unfold getPostsFeed
  simp [enrichPosts_length, List.length_map]

theorem feedQueryRows_length_le (db : DB) (limit : Nat) (cursor : Option String)
    (userId : Option String) (filter : Option String) :
    (feedQueryRows db userId filter cursor limit).length ≤ limit := by
  unfold feedQueryRows
  exact List.length_take_le _ _

/-- C2.  Page-size and end-of-stream postcondition, for the feed and for the
search endpoint: with limit L at least 1 the item list never exceeds L items,
nextCursor is non-null exactly when L items were returned, and a full page's
nextCursor is the created_at/pipe/id encoding of the last returned row. -/
theorem c2_page_size_and_next_cursor (db : DB) (limit : Nat) (cursor : Option String)
    (userId : Option String) (filter : Option String) (q tags : Option String)
    (sItems : List SearchItem) (sNext : Option String)
    (hL : 1 ≤ limit)
    (hs : searchHandler db q tags limit cursor = .ok (sItems, sNext)) :
    ((getPostsFeed db limit cursor userId filter).1.length ≤ limit ∧
      ((getPostsFeed db limit cursor userId filter).2.isSome = true ↔
        (getPostsFeed db limit cursor userId filter).1.length = limit) ∧
      ((getPostsFeed db limit cursor userId filter).1.length = limit →
        (getPostsFeed db limit cursor userId filter).2 =
          (getPostsFeed db limit cursor userId filter).1.getLast?.map
            fun e => e.base.created_at ++ "|" ++ e.base.id)) ∧
    (sItems.length ≤ limit ∧
      (sNext.isSome = true ↔ sItems.length = limit) ∧
      (sItems.length = limit →
        sNext = sItems.getLast?.map fun it => it.created_at ++ "|" ++ it.id)) := by
  have hitems := getPostsFeed_items_length db limit cursor userId filter
  have hbase := enrichPosts_map_base db
    ((feedQueryRows db userId filter cursor limit).map transformRow) userId
  constructor
  · refine ⟨?_, ?_, ?_⟩
    · rw [hitems]; exact feedQueryRows_length_le db limit cursor userId filter
    · show (nextCursorOf (feedQueryRows db userId filter cursor limit) limit).isSome = true ↔ _
      rw [hitems]
      exact nextCursorOf_isSome _ limit hL
    · intro hfull
      rw [hitems] at hfull
      show nextCursorOf (feedQueryRows db userId filter cursor limit) limit = _
      rw [nextCursorOf_eq_encode _ limit hfull hL]
      have hlast : (getPostsFeed db limit cursor userId filter).1.getLast?.map
          EnrichedPost.base =
          (feedQueryRows db userId filter cursor limit).getLast?.map transformRow := by
        rw [← List.getLast?_map, ← List.getLast?_map]
        show ((enrichPosts db _ userId).map EnrichedPost.base).getLast? = _
        rw [hbase]
      have := congrArg (Option.map fun b : TransformedPost => b.created_at ++ "|" ++ b.id) hlast
      rw [Option.map_map, Option.map_map] at this
      exact this.symm
  · unfold searchHandler at hs
    by_cases hc : presentParam q = none ∧ presentParam tags = none
    · simp [hc] at hs
    · simp only [hc, if_false, Except.ok.injEq, Prod.mk.injEq] at hs
      obtain ⟨hi, hn⟩ := hs
      have hrl : sItems.length = (searchRows db q tags cursor limit).length := by
        rw [← hi, List.length_map]
      have hrle : (searchRows db q tags cursor limit).length ≤ limit := by
        unfold searchRows
        exact List.length_take_le _ _
      refine ⟨by rw [hrl]; exact hrle, ?_, ?_⟩
      · rw [← hn, hrl]
        exact nextCursorOf_isSome _ limit hL
      · intro hfull
        rw [hrl] at hfull
        rw [← hn, nextCursorOf_eq_encode _ limit hfull hL, ← hi]
        rw [List.getLast?_map, Option.map_map]
        rfl

/-- C2, witness: a concrete full page of size 1 on the feed and on the search
endpoint of the two-post database. -/
theorem c2_witness :
    (getPostsFeed dbDuo 1 none none none).1.length ≤ 1 ∧
      (getPostsFeed dbDuo 1 none none none).2 =
        (getPostsFeed dbDuo 1 none none none).1.getLast?.map
          (fun e => e.base.created_at ++ "|" ++ e.base.id) ∧
      nextCursorOf (searchRows dbDuo none (some "house") none 1) 1 =
        ((searchRows dbDuo none (some "house") none 1).map
            projectSearchItem).getLast?.map
          fun it => it.created_at ++ "|" ++ it.id := by
  have h := c2_page_size_and_next_cursor dbDuo 1 none none none none (some "house")
    ((searchRows dbDuo none (some "house") none 1).map projectSearchItem)
    (nextCursorOf (searchRows dbDuo none (some "house") none 1) 1)
    (by decide) rfl
  exact ⟨h.1.1, h.1.2.2 (by decide), h.2.2.2 (by decide)⟩

/-! ## Batch aggregation postconditions -/

theorem assocGetD_of_not_mem {β : Type} (l : List (String × β)) (k : String) (d : β)
    (h : k ∉ l.map Prod.fst) : assocGetD l k d = d := by
  induction l with
  | nil => rfl
  | cons p rest ih =>
    obtain ⟨k1, v1⟩ := p
    simp only [List.map_cons, List.mem_cons] at h
    push_neg at h
    unfold assocGetD
    rw [if_neg fun e => h.1 e.symm]
    exact ih h.2

theorem mem_keys_groupBySum {pairs : List (String × Nat)} {k : String}
    (h : k ∈ (groupBySum pairs).map Prod.fst) : k ∈ pairs.map Prod.fst := by
  simp only [groupBySum, List.map_map] at h
  have h2 : k ∈ (pairs.map Prod.fst).dedup := by simpa using h
  exact List.mem_dedup.mp h2

theorem assocGetD_groupBySum_eq_zero {pairs : List (String × Nat)} {pid : String}
    (h : pid ∉ pairs.map Prod.fst) : assocGetD (groupBySum pairs) pid 0 = 0 :=
  assocGetD_of_not_mem _ _ _ fun hm => h (mem_keys_groupBySum hm)

theorem getPostCounts_entries (db : DB) (postIds : List String) (userId : Option String)
    (hne : ¬ postIds.isEmpty = true) :
    (getPostCountsAndUserActions db postIds userId).1 =
      postIds.map fun pid => (pid, aggEntryFor db postIds userId pid) := by
  unfold getPostCountsAndUserActions
  rw [if_neg hne]
  rfl

theorem lookup_map_self (f : String → AggEntry) (postIds : List String) (pid : String)
    (h : pid ∈ postIds) :
    (postIds.map fun x => (x, f x)).lookup pid = some (f pid) := by
  induction postIds with
  | nil => cases h
  | cons a rest ih =>
    by_cases hpa : pid = a
    · subst hpa
      simp [List.lookup]
    · have hbeq : (pid == a) = false := by simp [hpa]
      simp only [List.map_cons, List.lookup, hbeq]
      apply ih
      rcases List.mem_cons.mp h with h1 | h1
      · exact absurd h1 hpa
      · exact h1

/-- C3.  Batch aggregation postcondition: the resolved map's key set equals the
set of input ids; the empty input returns an empty map with zero queries; and
every input id whose rows are absent from some source still appears, with
count 0 for that source and false viewer flags (always false without a viewer,
and false for any source holding no row of that viewer on that post). -/
theorem c3_batch_aggregation (db : DB) (postIds : List String) (userId : Option String) :
    (postIds = [] → getPostCountsAndUserActions db postIds userId = ([], 0)) ∧
      (∀ k, k ∈ (getPostCountsAndUserActions db postIds userId).1.map Prod.fst ↔
        k ∈ postIds) ∧
      (∀ pid ∈ postIds, ∃ e,
        (getPostCountsAndUserActions db postIds userId).1.lookup pid = some e ∧
        (db.likes.filter (fun r => r.post_id == pid) = [] → e.likes = 0) ∧
        (db.comments.filter (fun r => r.post_id == pid) = [] → e.comments = 0) ∧
        (db.reposts.filter (fun r => r.post_id == pid) = [] → e.reposts = 0) ∧
        (db.analytics.filter (fun r => r.post_id == pid) = [] → e.plays = 0) ∧
        (userId = none →
          e.isLikedByMe = false ∧ e.isRepostedByMe = false ∧ e.isBookmarkedByMe = false) ∧
        (∀ uid, userId = some uid →
          (db.likes.filter (fun r => r.user_id == uid && r.post_id == pid) = [] →
            e.isLikedByMe = false) ∧
          (db.reposts.filter (fun r => r.user_id == uid && r.post_id == pid) = [] →
            e.isRepostedByMe = false) ∧
          (db.bookmarks.filter (fun r => r.user_id == uid && r.post_id == pid) = [] →
            e.isBookmarkedByMe = false))) := by
  refine ⟨?_, ?_, ?_⟩
  · intro h
    subst h
    rfl
  · intro k
    by_cases he : postIds.isEmpty = true
    · rw [List.isEmpty_iff.mp he]
      unfold getPostCountsAndUserActions
      simp
    · rw [getPostCounts_entries db postIds userId he, List.map_map]
      simp
  · intro pid hpid
    have he : ¬ postIds.isEmpty = true := by
      intro h
      rw [List.isEmpty_iff.mp h] at hpid
      cases hpid
    refine ⟨aggEntryFor db postIds userId pid, ?_, ?_, ?_, ?_, ?_, ?_, ?_⟩
    · rw [getPostCounts_entries db postIds userId he]
      exact lookup_map_self _ postIds pid hpid
    · intro hempty
      apply assocGetD_groupBySum_eq_zero
      intro hmem
      simp only [List.map_map] at hmem
      obtain ⟨r, hr, hrid⟩ := by simpa using hmem
      have : r ∈ db.likes.filter fun r => r.post_id == pid := by
        rw [List.mem_filter]
        exact ⟨hr.1, by simp [hrid]⟩
      rw [hempty] at this
      cases this
    · intro hempty
      apply assocGetD_groupBySum_eq_zero
      intro hmem
      simp only [List.map_map] at hmem
      obtain ⟨r, hr, hrid⟩ := by simpa using hmem
      have : r ∈ db.comments.filter fun r => r.post_id == pid := by
        rw [List.mem_filter]
        exact ⟨hr.1, by simp [hrid]⟩
      rw [hempty] at this
      cases this
    · intro hempty
      apply assocGetD_groupBySum_eq_zero
      intro hmem
      simp only [List.map_map] at hmem
      obtain ⟨r, hr, hrid⟩ := by simpa using hmem
      have : r ∈ db.reposts.filter fun r => r.post_id == pid := by
        rw [List.mem_filter]
        exact ⟨hr.1, by simp [hrid]⟩
      rw [hempty] at this
      cases this
    · intro hempty
      apply assocGetD_groupBySum_eq_zero
      intro hmem
      simp only [List.map_map] at hmem
      obtain ⟨r, hr, hrid⟩ := by simpa using hmem
      have : r ∈ db.analytics.filter fun r => r.post_id == pid := by
        rw [List.mem_filter]
        exact ⟨hr.1, by simp [hrid]⟩
      rw [hempty] at this
      cases this
    · intro hnone
      subst hnone
      refine ⟨rfl, rfl, rfl⟩
    · intro uid huid
      subst huid
      refine ⟨?_, ?_, ?_⟩
      · intro hempty
        show ((db.likes.filter fun r =>
            r.user_id == uid && postIds.contains r.post_id).map (·.post_id)).contains pid = false
        cases hb : ((db.likes.filter fun r =>
            r.user_id == uid && postIds.contains r.post_id).map (·.post_id)).contains pid
        · rfl
        · exfalso
          have hmem : pid ∈ (db.likes.filter fun r =>
              r.user_id == uid && postIds.contains r.post_id).map (·.post_id) := by
            simpa using hb
          obtain ⟨r, hr, hrid⟩ := by simpa using hmem
          have : r ∈ db.likes.filter fun r => r.user_id == uid && r.post_id == pid := by
            rw [List.mem_filter]
            exact ⟨hr.1, by simp [hr.2.1, hrid]⟩
          rw [hempty] at this
          cases this
      · intro hempty
        show ((db.reposts.filter fun r =>
            r.user_id == uid && postIds.contains r.post_id).map (·.post_id)).contains pid = false
        cases hb : ((db.reposts.filter fun r =>
            r.user_id == uid && postIds.contains r.post_id).map (·.post_id)).contains pid
        · rfl
        · exfalso
          have hmem : pid ∈ (db.reposts.filter fun r =>
              r.user_id == uid && postIds.contains r.post_id).map (·.post_id) := by
            simpa using hb
          obtain ⟨r, hr, hrid⟩ := by simpa using hmem
          have : r ∈ db.reposts.filter fun r => r.user_id == uid && r.post_id == pid := by
            rw [List.mem_filter]
            exact ⟨hr.1, by simp [hr.2.1, hrid]⟩
          rw [hempty] at this
          cases this
      · intro hempty
        show ((db.bookmarks.filter fun r =>
            r.user_id == uid && postIds.contains r.post_id).map (·.post_id)).contains pid = false
        cases hb : ((db.bookmarks.filter fun r =>
            r.user_id == uid && postIds.contains r.post_id).map (·.post_id)).contains pid
        · rfl
        · exfalso
          have hmem : pid ∈ (db.bookmarks.filter fun r =>
              r.user_id == uid && postIds.contains r.post_id).map (·.post_id) := by
            simpa using hb
          obtain ⟨r, hr, hrid⟩ := by simpa using hmem
          have : r ∈ db.bookmarks.filter fun r => r.user_id == uid && r.post_id == pid := by
            rw [List.mem_filter]
            exact ⟨hr.1, by simp [hr.2.1, hrid]⟩
          rw [hempty] at this
          cases this

/-- C3, witness: posts A and B of the concrete database with a viewer; B has no
like, repost, bookmark, comment or analytics rows at all yet is present in the
map with zero counts and false flags. -/
theorem c3_witness :
    getPostCountsAndUserActions dbDuo [] (some "u1") = ([], 0) ∧
      ("B" ∈ (getPostCountsAndUserActions dbDuo ["A", "B"] (some "u1")).1.map Prod.fst ↔
        "B" ∈ [("A" : String), "B"]) ∧
      (∃ e, (getPostCountsAndUserActions dbDuo ["A", "B"] (some "u1")).1.lookup "B" = some e ∧
        e.likes = 0 ∧ e.plays = 0 ∧ e.isLikedByMe = false) := by
  have h0 := (c3_batch_aggregation dbDuo [] (some "u1")).1 rfl
  have h1 := (c3_batch_aggregation dbDuo ["A", "B"] (some "u1")).2.1 "B"
  obtain ⟨e, he, hl, _, _, hp, _, hflags⟩ :=
    (c3_batch_aggregation dbDuo ["A", "B"] (some "u1")).2.2 "B" (by decide)
  exact ⟨h0, h1, e, he, hl (by decide), hp (by decide), (hflags "u1" rfl).1 (by decide)⟩

/-! ## Interaction toggle properties -/

theorem length_le_one_of_nodup_const {α : Type} {l : List α} {c : α}
    (h : l.Nodup) (hc : ∀ a ∈ l, a = c) : l.length ≤ 1 := by
  match l, h with
  | [], _ => simp
  | [a], _ => simp
  | a :: b :: t, h =>
    exfalso
    have ha := hc a (by simp)
    have hb := hc b (by simp)
    rw [List.nodup_cons] at h
    exact h.1 (by simp [ha, hb])

theorem isPair_iff (uid pid : String) (r : InteractionRow) :
    isPair uid pid r = true ↔ r = mkRow uid pid := by
  obtain ⟨ru, rp⟩ := r
  simp [isPair, mkRow]

/-- The deleted-and-reinserted row list of a present-state toggle is a
permutation of the original list, provided at most one row per (user, post)
pair exists. -/
theorem toggle_present_perm (rows : List InteractionRow) (uid pid : String)
    (hinv : (rows.map fun r => (r.user_id, r.post_id)).Nodup)
    (h : (rows.any (isPair uid pid)) = true) :
    ((rows.filter fun r => !(isPair uid pid r)) ++ [mkRow uid pid]).Perm rows := by
  have hall : ∀ r ∈ rows.filter (isPair uid pid), r = mkRow uid pid := by
    intro r hr
    exact (isPair_iff uid pid r).mp (List.mem_filter.mp hr).2
  have hsub : ((rows.filter (isPair uid pid)).map fun r => (r.user_id, r.post_id)).Nodup :=
    ((List.filter_sublist rows).map _).nodup hinv
  have hlen : (rows.filter (isPair uid pid)).length ≤ 1 := by
    have hle := length_le_one_of_nodup_const hsub (c := (uid, pid)) ?_
    · simpa using hle
    · intro a ha
      obtain ⟨r, hr, hre⟩ := List.mem_map.mp ha
      rw [hall r hr] at hre
      exact hre.symm
  have hne : rows.filter (isPair uid pid) ≠ [] := by
    obtain ⟨r, hr, hpr⟩ := List.any_eq_true.mp h
    intro hnil
    have hmem : r ∈ rows.filter (isPair uid pid) := List.mem_filter.mpr ⟨hr, hpr⟩
    rw [hnil] at hmem
    cases hmem
  have hone : rows.filter (isPair uid pid) = [mkRow uid pid] := by
    cases hfe : rows.filter (isPair uid pid) with
    | nil => exact absurd hfe hne
    | cons a t =>
      cases t with
      | nil =>
        have ha := hall a (by rw [hfe]; simp)
        rw [ha]
      | cons b t2 =>
        rw [hfe] at hlen
        simp at hlen
  have hperm := List.filter_append_perm (isPair uid pid) rows
  rw [hone] at hperm
  exact List.perm_append_comm.trans hperm

/-- C9.  For each interaction relation, a toggle is a two-state flip returning
the updated total: the returned boolean is the negation of the prior presence
and matches the new state, the returned count is the relation's total for the
post in the new state, the at-most-one-row-per-(user, post) invariant is
preserved by both toggles, and two sequential toggles restore the original
presence and the original count. -/
theorem c9_toggle_two_state_flip (rows : List InteractionRow) (uid pid : String)
    (hinv : (rows.map fun r => (r.user_id, r.post_id)).Nodup) :
    (toggleInteraction rows uid pid).1 = !(rows.any (isPair uid pid)) ∧
      ((toggleInteraction rows uid pid).2.2.any (isPair uid pid)) =
        (toggleInteraction rows uid pid).1 ∧
      (toggleInteraction rows uid pid).2.1 =
        ((toggleInteraction rows uid pid).2.2.filter fun r => r.post_id == pid).length ∧
      ((toggleInteraction rows uid pid).2.2.map fun r => (r.user_id, r.post_id)).Nodup ∧
      ((toggleInteraction (toggleInteraction rows uid pid).2.2 uid pid).2.2.map fun r =>
          (r.user_id, r.post_id)).Nodup ∧
      (toggleInteraction (toggleInteraction rows uid pid).2.2 uid pid).1 =
        !(toggleInteraction rows uid pid).1 ∧
      ((toggleInteraction (toggleInteraction rows uid pid).2.2 uid pid).2.2.any
          (isPair uid pid)) = (rows.any (isPair uid pid)) ∧
      ((toggleInteraction (toggleInteraction rows uid pid).2.2 uid pid).2.2.filter fun r =>
          r.post_id == pid).length = (rows.filter fun r => r.post_id == pid).length := by
  have hpair : ∀ l : List InteractionRow,
      (l.any fun r => r.user_id == uid && r.post_id == pid) = l.any (isPair uid pid) :=
    fun l => rfl
  by_cases h : (rows.any (isPair uid pid)) = true
  · -- state present: first toggle deletes, second inserts
    have hd : toggleInteraction rows uid pid =
        (false,
          ((rows.filter fun r => !(isPair uid pid r)).filter fun r =>
            r.post_id == pid).length,
          rows.filter fun r => !(isPair uid pid r)) := by
      unfold toggleInteraction
      rw [hpair rows, if_pos h]
      rfl
    have hany1 : ((rows.filter fun r => !(isPair uid pid r)).any (isPair uid pid)) =
        false := by
      rw [List.any_eq_false]
      intro r hr
      have hmf := (List.mem_filter.mp hr).2
      simp only [Bool.not_eq_eq_eq_not, Bool.not_true] at hmf
      simp [hmf]
    have hi : toggleInteraction (rows.filter fun r => !(isPair uid pid r)) uid pid =
        (true,
          (((rows.filter fun r => !(isPair uid pid r)) ++
            [mkRow uid pid]).filter fun r => r.post_id == pid).length,
          (rows.filter fun r => !(isPair uid pid r)) ++ [mkRow uid pid]) := by
      unfold toggleInteraction
      rw [hpair, if_neg (by rw [hany1]; exact Bool.false_ne_true)]
      rfl
    have hperm := toggle_present_perm rows uid pid hinv h
    have hinv1 : ((rows.filter fun r => !(isPair uid pid r)).map fun r =>
        (r.user_id, r.post_id)).Nodup :=
      ((List.filter_sublist rows).map _).nodup hinv
    refine ⟨?_, ?_, ?_, ?_, ?_, ?_, ?_, ?_⟩
    · rw [hd, h]
      rfl
    · rw [hd]
      exact hany1
    · rw [hd]
    · rw [hd]
      exact hinv1
    · rw [hd, hi]
      rw [show ((rows.filter fun r => !(isPair uid pid r)) ++
          [mkRow uid pid]).map (fun r => (r.user_id, r.post_id)) =
          ((rows.filter fun r => !(isPair uid pid r)).map fun r =>
            (r.user_id, r.post_id)) ++ [(uid, pid)] by rw [List.map_append]; rfl]
      rw [List.nodup_append]
      refine ⟨hinv1, by simp, ?_⟩
      intro a ha hb
      obtain ⟨r, hr, hre⟩ := List.mem_map.mp ha
      have hnp := (List.mem_filter.mp hr).2
      simp only [List.mem_singleton] at hb
      rw [hb] at hre
      have hP : isPair uid pid r = true := by
        apply (isPair_iff uid pid r).mpr
        obtain ⟨ru, rp⟩ := r
        have h1 : ru = uid := congrArg Prod.fst hre
        have h2 : rp = pid := congrArg Prod.snd hre
        rw [mkRow, h1, h2]
      rw [hP] at hnp
      cases hnp
    · rw [hd, hi]
      rfl
    · rw [hd, hi, h]
      rw [List.any_append]
      have : ([mkRow uid pid].any (isPair uid pid)) = true := by
        simp [isPair, mkRow]
      rw [this, Bool.or_true]
    · rw [hd, hi]
      exact (hperm.filter fun r => r.post_id == pid).length_eq
  · -- state absent: first toggle inserts, second deletes
    have hb : (rows.any (isPair uid pid)) = false := eq_false_of_ne_true h
    have hd : toggleInteraction rows uid pid =
        (true,
          ((rows ++ [mkRow uid pid]).filter fun r => r.post_id == pid).length,
          rows ++ [mkRow uid pid]) := by
      unfold toggleInteraction
      rw [hpair rows, if_neg h]
      rfl
    have hany1 : ((rows ++ [mkRow uid pid]).any (isPair uid pid)) = true := by
      rw [List.any_append, hb]
      have : ([mkRow uid pid].any (isPair uid pid)) = true := by
        simp [isPair, mkRow]
      rw [this, Bool.false_or]
    have hfilt : (rows ++ [mkRow uid pid]).filter
        (fun r => !(r.user_id == uid && r.post_id == pid)) = rows := by
      rw [List.filter_append]
      have h1 : rows.filter (fun r => !(r.user_id == uid && r.post_id == pid)) = rows := by
        rw [List.filter_eq_self]
        intro a ha
        have hfa := List.any_eq_false.mp hb a ha
        unfold isPair at hfa
        cases hcc : (a.user_id == uid && a.post_id == pid)
        · rfl
        · exact absurd hcc hfa
      have h2 : [mkRow uid pid].filter
          (fun r => !(r.user_id == uid && r.post_id == pid)) = [] := by
        simp [mkRow]
      rw [h1, h2, List.append_nil]
    have hi : toggleInteraction (rows ++ [mkRow uid pid]) uid pid =
        (false, (rows.filter fun r => r.post_id == pid).length, rows) := by
      unfold toggleInteraction
      rw [hpair, if_pos hany1, hfilt]
    refine ⟨?_, ?_, ?_, ?_, ?_, ?_, ?_, ?_⟩
    · rw [hd, hb]
      rfl
    · rw [hd]
      exact hany1
    · rw [hd]
    · rw [hd]
      rw [show (rows ++ [mkRow uid pid]).map (fun r => (r.user_id, r.post_id)) =
          (rows.map fun r => (r.user_id, r.post_id)) ++ [(uid, pid)] by
        rw [List.map_append]; rfl]
      rw [List.nodup_append]
      refine ⟨hinv, by simp, ?_⟩
      intro a ha hbm
      obtain ⟨r, hr, hre⟩ := List.mem_map.mp ha
      simp only [List.mem_singleton] at hbm
      rw [hbm] at hre
      have hP : isPair uid pid r = true := by
        apply (isPair_iff uid pid r).mpr
        obtain ⟨ru, rp⟩ := r
        have h1 : ru = uid := congrArg Prod.fst hre
        have h2 : rp = pid := congrArg Prod.snd hre
        rw [mkRow, h1, h2]
      have hfa := List.any_eq_false.mp hb r hr
      rw [hP] at hfa
      exact hfa rfl
    · rw [hd, hi]
      exact hinv
    · rw [hd, hi]
      rfl
    · rw [hd, hi, hb]
    · rw [hd, hi]

/-- C9, witness: toggling twice from the empty relation returns present = true
then present = false and restores the zero count. -/
theorem c9_witness :
    (toggleInteraction ([] : List InteractionRow) "u1" "A").1 = true ∧
      (toggleInteraction
        (toggleInteraction ([] : List InteractionRow) "u1" "A").2.2 "u1" "A").1 = false ∧
      ((toggleInteraction
          (toggleInteraction ([] : List InteractionRow) "u1" "A").2.2 "u1" "A").2.2.filter
        fun r => r.post_id == "A").length =
        (([] : List InteractionRow).filter fun r => r.post_id == "A").length := by
  obtain ⟨h1, h2, h3, h4, h5, h6, h7, h8⟩ :=
    c9_toggle_two_state_flip [] "u1" "A" (by decide)
  refine ⟨by simpa using h1, ?_, h8⟩
  rw [h6]
  simpa using h1

/-! ## Visibility filtering is cursor-independent -/

theorem mem_joinedRows_post (db : DB) {r : FeedRow} (h : r ∈ joinedRows db) :
    r.post ∈ db.posts := by
  unfold joinedRows at h
  obtain ⟨p, hp, h⟩ := List.mem_flatMap.mp h
  obtain ⟨u, hu, h⟩ := List.mem_flatMap.mp h
  obtain ⟨pv, hpv, h⟩ := List.mem_flatMap.mp h
  obtain ⟨wf, hwf, h⟩ := List.mem_map.mp h
  rw [← h]
  exact hp

theorem feedBaseRows_subset (db : DB) (userId filter : Option String) {r : FeedRow}
    (h : r ∈ feedBaseRows db userId filter) :
    r ∈ (joinedRows db).filter fun r => eligible r.post := by
  unfold feedBaseRows at h
  split at h
  · exact (List.mem_filter.mp h).1
  · exact h

theorem mem_applyCursor (rows : List FeedRow) (cursor : Option String) {r : FeedRow}
    (h : r ∈ applyCursor rows cursor) : r ∈ rows := by
  cases cursor with
  | none => exact h
  | some c => exact (List.mem_filter.mp h).1

theorem mem_sortRows (rows : List FeedRow) {r : FeedRow} (h : r ∈ sortRows rows) :
    r ∈ rows :=
  (List.perm_insertionSort feedBefore rows).mem_iff.mp h

theorem mem_feedQueryRows_eligible (db : DB) (userId filter cursor : Option String)
    (limit : Nat) {r : FeedRow} (h : r ∈ feedQueryRows db userId filter cursor limit) :
    r.post ∈ db.posts ∧ eligible r.post = true := by
  unfold feedQueryRows at h
  have h1 := mem_applyCursor _ cursor (mem_sortRows _ (List.mem_of_mem_take h))
  have h2 := List.mem_filter.mp (feedBaseRows_subset db userId filter h1)
  exact ⟨mem_joinedRows_post db h2.1, h2.2⟩

theorem mem_searchRows_eligible (db : DB) (q tags cursor : Option String)
    (limit : Nat) {r : FeedRow} (h : r ∈ searchRows db q tags cursor limit) :
    r.post ∈ db.posts ∧ eligible r.post = true := by
  unfold searchRows at h
  have h1 := mem_applyCursor _ cursor (mem_sortRows _ (List.mem_of_mem_take h))
  have h2 := List.mem_filter.mp h1
  have h3 := h2.2
  unfold searchFilter at h3
  simp only [Bool.and_eq_true] at h3
  exact ⟨mem_joinedRows_post db h2.1, h3.1.1⟩

theorem eligible_fields {p : Post} (h : eligible p = true) :
    p.ready = true ∧ p.visibility = "public" := by
  unfold eligible at h
  simp only [Bool.and_eq_true, beq_iff_eq] at h
  exact h

/-- C8.  Visibility filtering is cursor-independent: for every cursor string,
including arbitrary forged ones, every item returned by the feed and by the
search query comes from a post with ready = true and visibility = public; a
cursor can only shift the page boundary, never surface a non-eligible post. -/
theorem c8_visibility_cursor_independent (db : DB) (limit : Nat)
    (cursor : Option String) (userId filter q tags : Option String) :
    (∀ e ∈ (getPostsFeed db limit cursor userId filter).1, ∃ p ∈ db.posts,
      p.ready = true ∧ p.visibility = "public" ∧ e.base.id = p.id ∧
        e.base.created_at = p.created_at) ∧
    (∀ items next, searchHandler db q tags limit cursor = .ok (items, next) →
      ∀ it ∈ items, ∃ p ∈ db.posts,
        p.ready = true ∧ p.visibility = "public" ∧ it.id = p.id ∧
          it.created_at = p.created_at) := by
  constructor
  · intro e he
    have hbase : e.base ∈ (feedQueryRows db userId filter cursor limit).map transformRow := by
      rw [← enrichPosts_map_base db
        ((feedQueryRows db userId filter cursor limit).map transformRow) userId]
      exact List.mem_map_of_mem EnrichedPost.base he
    obtain ⟨r, hr, htr⟩ := List.mem_map.mp hbase
    obtain ⟨hp, hel⟩ := mem_feedQueryRows_eligible db userId filter cursor limit hr
    obtain ⟨hready, hvis⟩ := eligible_fields hel
    exact ⟨r.post, hp, hready, hvis, by rw [← htr]; rfl, by rw [← htr]; rfl⟩
  · intro items next hs it hit
    unfold searchHandler at hs
    by_cases hc : presentParam q = none ∧ presentParam tags = none
    · simp [hc] at hs
    · simp only [hc, if_false, Except.ok.injEq, Prod.mk.injEq] at hs
      rw [← hs.1] at hit
      obtain ⟨r, hr, htr⟩ := List.mem_map.mp hit
      obtain ⟨hp, hel⟩ := mem_searchRows_eligible db q tags cursor limit hr
      obtain ⟨hready, hvis⟩ := eligible_fields hel
      exact ⟨r.post, hp, hready, hvis, by rw [← htr]; rfl, by rw [← htr]; rfl⟩

/-- C8, witness: a forged cursor still yields the first feed item from an
eligible post of the concrete database. -/
theorem c8_witness :
    ∃ p ∈ dbDuo.posts, p.ready = true ∧ p.visibility = "public" ∧
      ((getPostsFeed dbDuo 5 (some "zz|zz") none none).1.headD dummyEnriched).base.id =
        p.id ∧
      ((getPostsFeed dbDuo 5 (some "zz|zz") none none).1.headD
        dummyEnriched).base.created_at = p.created_at :=
  (c8_visibility_cursor_independent dbDuo 5 (some "zz|zz") none none none none).1
    ((getPostsFeed dbDuo 5 (some "zz|zz") none none).1.headD dummyEnriched) (by decide)

/-! ## Tag-intersection search semantics -/

/-- A supplied nonempty tags parameter survives the truthiness check. -/
theorem presentParam_of_ne {s : String} (h : s ≠ "") : presentParam (some s) = some s := by
  show (if s = "" then none else some s) = some s
  rw [if_neg h]

/-- For nodup lists, the HAVING count comparison holds exactly when every
requested tag is among the values. -/
theorem length_le_filter_iff {nlist tagList : List String}
    (hnl : nlist.Nodup) (hnd : tagList.Nodup) :
    (tagList.length ≤ (nlist.filter fun t => tagList.contains t).length) ↔
      ∀ t ∈ tagList, t ∈ nlist := by
  constructor
  · intro hle t ht
    by_contra hnot
    have hfsub : ∀ x ∈ nlist.filter (fun t => tagList.contains t), x ∈ tagList.erase t := by
      intro x hx
      have hx1 := List.mem_filter.mp hx
      have hxt : x ∈ tagList := by simpa using hx1.2
      have hxe : x ≠ t := fun he => hnot (he ▸ hx1.1)
      exact (List.mem_erase_of_ne hxe).mpr hxt
    have hfn : (nlist.filter fun t => tagList.contains t).Nodup :=
      List.Nodup.filter _ hnl
    have hlen := (hfn.subperm hfsub).length_le
    rw [List.length_erase_of_mem ht] at hlen
    have hpos : 0 < tagList.length := List.length_pos.mpr (List.ne_nil_of_mem ht)
    omega
  · intro hall
    have hsub : ∀ x ∈ tagList, x ∈ nlist.filter fun t => tagList.contains t := by
      intro x hx
      exact List.mem_filter.mpr ⟨hall x hx, by simpa using hx⟩
    exact (hnd.subperm hsub).length_le

theorem sortRows_length (rows : List FeedRow) : (sortRows rows).length = rows.length :=
  (List.perm_insertionSort feedBefore rows).length_eq

theorem matchedTagCount_eq (db : DB) (tagList : List String) (pid : String) :
    matchedTagCount db tagList pid =
      (((postTagJoin db pid).map TagRow.normalized).filter fun t =>
        tagList.contains t).length := by
  unfold matchedTagCount
  rw [List.filter_map, List.length_map]
  rfl

/-- Under the data-model invariants (unique (post, tag) association rows,
unique tag ids, unique normalized tag names), the list of normalized names
joined to one post has no duplicates. -/
theorem postTagJoin_normalized_nodup (db : DB) (pid : String)
    (hpt : (db.post_tags.map fun pt => (pt.post_id, pt.tag_id)).Nodup)
    (hnorm : (db.tags.map TagRow.normalized).Nodup) :
    ((postTagJoin db pid).map TagRow.normalized).Nodup := by
  unfold postTagJoin
  rw [List.map_flatMap, List.nodup_flatMap]
  constructor
  · intro pt hpt2
    exact ((List.filter_sublist db.tags).map TagRow.normalized).nodup hnorm
  · have hids : List.Pairwise (fun a b : PostTagRow => a.tag_id ≠ b.tag_id)
        (db.post_tags.filter fun pt => pt.post_id == pid) := by
      have h1 : List.Pairwise (fun a b : PostTagRow =>
          (a.post_id, a.tag_id) ≠ (b.post_id, b.tag_id)) db.post_tags :=
        List.pairwise_map.mp hpt
      have h2 := List.Pairwise.sublist
        (List.filter_sublist (p := fun pt => pt.post_id == pid) db.post_tags) h1
      refine List.Pairwise.imp_of_mem ?_ h2
      intro a b ha hb hne heq
      have hpa : a.post_id = pid := by
        have := (List.mem_filter.mp ha).2
        simpa using this
      have hpb : b.post_id = pid := by
        have := (List.mem_filter.mp hb).2
        simpa using this
      exact hne (by rw [hpa, hpb, heq])
    refine hids.imp ?_
    intro a b hab
    intro x hx1 hx2
    obtain ⟨ta, hta, hna⟩ := List.mem_map.mp hx1
    obtain ⟨tb, htb, hnb⟩ := List.mem_map.mp hx2
    have hta2 := List.mem_filter.mp hta
    have htb2 := List.mem_filter.mp htb
    have hteq : ta = tb := by
      apply List.inj_on_of_nodup_map hnorm hta2.1 htb2.1
      rw [hna, hnb]
    have hida : ta.id = a.tag_id := by simpa using hta2.2
    have hidb : tb.id = b.tag_id := by simpa using htb2.2
    exact hab (by rw [← hida, ← hidb, hteq])

/-- C4, counterexample to the claim as stated: under the duplicate request
tags=house,house, post B is linked to every distinct normalized requested tag
(just house) and is eligible, yet it does not appear in the results, because
the HAVING threshold counts the requested list with its duplicate. -/
theorem c4_counterexample_duplicate_request :
    ¬ ((∃ it ∈ (searchRows dbDuo none (some "house,house") none 20).map
          projectSearchItem, it.id = "B") ↔
        (eligible postB = true ∧
          ∀ t ∈ (parseTags "house,house").dedup,
            t ∈ (postTagJoin dbDuo "B").map TagRow.normalized)) := by
  decide

/-- C4, amended.  For a search request whose parsed tag list has no duplicate
normalized entries, a post row appears in the results (with no cursor and a
limit at least the size of the result set) if and only if it is feed-eligible,
satisfies the text filter when one is supplied, and is linked to every
requested normalized tag — set intersection, not union. -/
theorem c4_amended_tag_intersection (db : DB) (q : Option String) (tagsStr : String)
    (limit : Nat)
    (hne : tagsStr ≠ "")
    (hnd : (parseTags tagsStr).Nodup)
    (hids : ((joinedRows db).map fun r => r.post.id).Nodup)
    (hpt : (db.post_tags.map fun pt => (pt.post_id, pt.tag_id)).Nodup)
    (hnorm : (db.tags.map TagRow.normalized).Nodup)
    (hlim : ((joinedRows db).filter
      (searchFilter db (presentParam q) (some (parseTags tagsStr)))).length ≤ limit) :
    ∀ r ∈ joinedRows db,
      (∃ it ∈ (searchRows db q (some tagsStr) none limit).map projectSearchItem,
          it.id = r.post.id) ↔
        (eligible r.post = true ∧
          (match presentParam q with
            | some qs => textKeep qs r
            | none => true) = true ∧
          ∀ t ∈ parseTags tagsStr,
            t ∈ (postTagJoin db r.post.id).map TagRow.normalized) := by
  intro r hr
  have hrows : searchRows db q (some tagsStr) none limit =
      sortRows ((joinedRows db).filter
        (searchFilter db (presentParam q) (some (parseTags tagsStr)))) := by
    unfold searchRows
    rw [presentParam_of_ne hne]
    show (sortRows ((joinedRows db).filter
      (searchFilter db (presentParam q) (some (parseTags tagsStr))))).take limit = _
    apply List.take_of_length_le
    rw [sortRows_length]
    exact hlim
  have htag : ∀ r2 : FeedRow,
      (tagKeep db (parseTags tagsStr) r2 = true ↔
        ∀ t ∈ parseTags tagsStr,
          t ∈ (postTagJoin db r2.post.id).map TagRow.normalized) := by
    intro r2
    unfold tagKeep
    rw [decide_eq_true_eq, matchedTagCount_eq]
    exact length_le_filter_iff
      (postTagJoin_normalized_nodup db r2.post.id hpt hnorm) hnd
  have hsf : ∀ r2 : FeedRow,
      (searchFilter db (presentParam q) (some (parseTags tagsStr)) r2 = true ↔
        (eligible r2.post = true ∧
          (match presentParam q with
            | some qs => textKeep qs r2
            | none => true) = true ∧
          tagKeep db (parseTags tagsStr) r2 = true)) := by
    intro r2
    unfold searchFilter
    simp only [Bool.and_eq_true]
    constructor
    · rintro ⟨⟨h1, h2⟩, h3⟩
      exact ⟨h1, h2, h3⟩
    · rintro ⟨h1, h2, h3⟩
      exact ⟨⟨h1, h2⟩, h3⟩
  rw [hrows]
  constructor
  · rintro ⟨it, hit, hid⟩
    obtain ⟨r2, hr2, hproj⟩ := List.mem_map.mp hit
    have hr2f := mem_sortRows _ hr2
    have hr2m := List.mem_filter.mp hr2f
    have hidr2 : r2.post.id = r.post.id := by
      rw [← hid, ← hproj]
      rfl
    have hreq : r2 = r := List.inj_on_of_nodup_map hids hr2m.1 hr hidr2
    have hsf2 := (hsf r2).mp hr2m.2
    rw [hreq] at hsf2
    exact ⟨hsf2.1, hsf2.2.1, (htag r).mp hsf2.2.2⟩
  · rintro ⟨h1, h2, h3⟩
    have hsfr : searchFilter db (presentParam q) (some (parseTags tagsStr)) r = true :=
      (hsf r).mpr ⟨h1, h2, (htag r).mpr h3⟩
    have hrf : r ∈ (joinedRows db).filter
        (searchFilter db (presentParam q) (some (parseTags tagsStr))) :=
      List.mem_filter.mpr ⟨hr, hsfr⟩
    have hrs : r ∈ sortRows ((joinedRows db).filter
        (searchFilter db (presentParam q) (some (parseTags tagsStr)))) :=
      (List.perm_insertionSort feedBefore _).mem_iff.mpr hrf
    exact ⟨projectSearchItem r, List.mem_map_of_mem projectSearchItem hrs, rfl⟩

/-- C4, amended, witness: on the concrete database the first joined row (post
A, tagged house and techno) satisfies the intersection request
tags=house,techno. -/
theorem c4_amended_witness :
    (∃ it ∈ (searchRows dbDuo none (some "house,techno") none 20).map
        projectSearchItem,
        it.id = ((joinedRows dbDuo).headD dummyFeedRow).post.id) ↔
      (eligible ((joinedRows dbDuo).headD dummyFeedRow).post = true ∧
        (match presentParam none with
          | some qs => textKeep qs ((joinedRows dbDuo).headD dummyFeedRow)
          | none => true) = true ∧
        ∀ t ∈ parseTags "house,techno",
          t ∈ (postTagJoin dbDuo
            ((joinedRows dbDuo).headD dummyFeedRow).post.id).map TagRow.normalized) :=
  c4_amended_tag_intersection dbDuo none "house,techno" 20 (by decide) (by decide)
    (by decide) (by decide) (by decide) (by decide)
    ((joinedRows dbDuo).headD dummyFeedRow) (by decide)

/-! ## Cursor round trip -/

theorem string_data_append (a b : String) : (a ++ b).data = a.data ++ b.data := by
  cases a; cases b; rfl

theorem string_data_injective : Function.Injective String.data := by
  intro a b h
  cases a; cases b
  exact congrArg String.mk h

theorem splitChar_no_sep (sep : Char) (b : List Char) (hb : sep ∉ b) :
    ∀ acc, splitChar sep acc b = [acc.reverse ++ b] := by
  induction b with
  | nil => intro acc; simp [splitChar]
  | cons c cs ih =>
    intro acc
    have hc : ¬ c = sep := fun he => hb (by rw [he]; exact List.mem_cons_self sep cs)
    show (if c = sep then acc.reverse :: splitChar sep [] cs
        else splitChar sep (c :: acc) cs) = _
    rw [if_neg hc, ih (fun hm => hb (List.mem_cons_of_mem c hm)) (c :: acc)]
    simp

theorem splitChar_append_sep (sep : Char) (b : List Char) (hb : sep ∉ b) :
    ∀ (a : List Char), sep ∉ a →
      ∀ acc, splitChar sep acc (a ++ sep :: b) = [acc.reverse ++ a, b] := by
  intro a
  induction a with
  | nil =>
    intro _ acc
    show (if sep = sep then acc.reverse :: splitChar sep [] b
        else splitChar sep (sep :: acc) b) = _
    rw [if_pos rfl, splitChar_no_sep sep b hb []]
    simp
  | cons c cs ih =>
    intro ha acc
    have hc : ¬ c = sep := fun he => ha (by rw [he]; exact List.mem_cons_self sep cs)
    show (if c = sep then acc.reverse :: splitChar sep [] (cs ++ sep :: b)
        else splitChar sep (c :: acc) (cs ++ sep :: b)) = _
    rw [if_neg hc, ih (fun hm => ha (List.mem_cons_of_mem c hm)) (c :: acc)]
    simp

theorem decodeCursor_encode (r : FeedRow)
    (h1 : '|' ∉ r.post.created_at.data) (h2 : '|' ∉ r.post.id.data) :
    decodeCursor (encodeCursor r) = (r.post.created_at, some r.post.id) := by
  have hdata : (encodeCursor r).data =
      r.post.created_at.data ++ '|' :: r.post.id.data := by
    show (r.post.created_at ++ "|" ++ r.post.id).data = _
    rw [string_data_append, string_data_append]
    simp
  unfold decodeCursor jsSplit
  rw [hdata, splitChar_append_sep '|' r.post.id.data h2 r.post.created_at.data h1 []]
  rfl

theorem cursorKeep_encode (r0 : FeedRow)
    (h1 : '|' ∉ r0.post.created_at.data) (h2 : '|' ∉ r0.post.id.data) (r : FeedRow) :
    cursorKeep (encodeCursor r0) r = decide (keyLt (rowKey r) (rowKey r0)) := by
  unfold cursorKeep
  rw [decodeCursor_encode r0 h1 h2]
  rfl

/-! ## Strictly sorted pages -/

theorem sortRows_sorted (rows : List FeedRow) : List.Sorted feedBefore (sortRows rows) :=
  List.sorted_insertionSort feedBefore rows

theorem sortRows_ids_nodup {F : List FeedRow}
    (h : (F.map fun r => r.post.id).Nodup) :
    ((sortRows F).map fun r => r.post.id).Nodup :=
  (((List.perm_insertionSort feedBefore F).map fun r => r.post.id).nodup_iff).mpr h

theorem sorted_strict {l : List FeedRow} (hs : List.Sorted feedBefore l)
    (hnd : (l.map fun r => r.post.id).Nodup) :
    List.Pairwise (fun a b => keyLt (rowKey b) (rowKey a)) l := by
  have hdat : (l.map fun r => r.post.id.data).Nodup := by
    have heq : (l.map fun r => r.post.id.data) =
        (l.map fun r => r.post.id).map String.data := by
      rw [List.map_map]
      rfl
    rw [heq]
    exact hnd.map string_data_injective
  have hkey : (l.map rowKey).Nodup := by
    apply List.Nodup.of_map Prod.snd
    rw [List.map_map]
    exact hdat
  have hne : List.Pairwise (fun a b : FeedRow => rowKey a ≠ rowKey b) l :=
    List.pairwise_map.mp hkey
  refine List.Pairwise.imp ?_ (List.Pairwise.and hs hne)
  intro a b hab
  rcases hab with ⟨hf | heq, hne2⟩
  · exact hf
  · exact absurd heq hne2

theorem filter_lt_key_drop :
    ∀ (l : List FeedRow), List.Pairwise (fun a b => keyLt (rowKey b) (rowKey a)) l →
      ∀ i (h : i < l.length),
        l.filter (fun r => decide (keyLt (rowKey r) (rowKey (l.get ⟨i, h⟩)))) =
          l.drop (i + 1) := by
  intro l
  induction l with
  | nil => intro _ i h; exact absurd h (Nat.not_lt_zero i)
  | cons a t ih =>
    intro hp i h
    have hrel := List.pairwise_cons.mp hp
    cases i with
    | zero =>
      show (a :: t).filter (fun r => decide (keyLt (rowKey r) (rowKey a))) = t
      rw [List.filter_cons]
      have ha : (decide (keyLt (rowKey a) (rowKey a))) = false :=
        decide_eq_false (keyLt_irrefl (rowKey a))
      simp only [ha, Bool.false_eq_true, if_false]
      rw [List.filter_eq_self]
      intro r hr
      exact decide_eq_true (hrel.1 r hr)
    | succ n =>
      have hn : n < t.length := Nat.lt_of_succ_lt_succ h
      show (a :: t).filter
          (fun r => decide (keyLt (rowKey r) (rowKey (t.get ⟨n, hn⟩)))) = t.drop (n + 1)
      rw [List.filter_cons]
      have ha : decide (keyLt (rowKey a) (rowKey (t.get ⟨n, hn⟩))) = false := by
        apply decide_eq_false
        intro hlt
        exact keyLt_asymm hlt (hrel.1 _ (t.get_mem n hn))
      simp only [ha, Bool.false_eq_true, if_false]
      exact ih hrel.2 n hn

theorem sortRows_filter_comm (F : List FeedRow) (k : FeedRow → Bool)
    (hnd : (F.map fun r => r.post.id).Nodup) :
    sortRows (F.filter k) = (sortRows F).filter k := by
  haveI : IsAntisymm FeedRow (fun a b => keyLt (rowKey b) (rowKey a)) :=
    ⟨fun a b h1 h2 => (keyLt_asymm h1 h2).elim⟩
  apply List.eq_of_perm_of_sorted (r := fun a b => keyLt (rowKey b) (rowKey a))
  · exact (List.perm_insertionSort feedBefore (F.filter k)).trans
      (List.Perm.filter k (List.perm_insertionSort feedBefore F).symm)
  · exact sorted_strict (sortRows_sorted _)
      (sortRows_ids_nodup (((List.filter_sublist F).map _).nodup hnd))
  · exact List.Pairwise.sublist (List.filter_sublist _)
      (sorted_strict (sortRows_sorted F) (sortRows_ids_nodup hnd))

/-! ## The keyset page equations -/

theorem feedQueryRows_none_eq (db : DB) (limit : Nat) :
    feedQueryRows db none none none limit = (feedSorted db).take limit := rfl

theorem feedQueryRows_cursor_eq (db : DB) (limit : Nat) (c : String)
    (hids : ((joinedRows db).map fun r => r.post.id).Nodup) :
    feedQueryRows db none none (some c) limit =
      ((feedSorted db).filter (cursorKeep c)).take limit := by
  unfold feedQueryRows feedSorted
  show (sortRows (((joinedRows db).filter fun r =>
      eligible r.post).filter (cursorKeep c))).take limit = _
  rw [sortRows_filter_comm _ (cursorKeep c)
    (((List.filter_sublist (joinedRows db)).map _).nodup hids)]

theorem feedSorted_strict (db : DB)
    (hids : ((joinedRows db).map fun r => r.post.id).Nodup) :
    List.Pairwise (fun a b => keyLt (rowKey b) (rowKey a)) (feedSorted db) :=
  sorted_strict (sortRows_sorted _)
    (sortRows_ids_nodup (((List.filter_sublist (joinedRows db)).map _).nodup hids))

theorem feedSorted_pipe_free (db : DB)
    (hpipe : ∀ p ∈ db.posts, ('|' ∉ p.created_at.data) ∧ ('|' ∉ p.id.data)) :
    ∀ r ∈ feedSorted db, ('|' ∉ r.post.created_at.data) ∧ ('|' ∉ r.post.id.data) := by
  intro r hr
  have h1 : r ∈ (joinedRows db).filter fun r => eligible r.post := mem_sortRows _ hr
  exact hpipe r.post (mem_joinedRows_post db (List.mem_filter.mp h1).1)

theorem feedPage_at_index (db : DB)
    (hids : ((joinedRows db).map fun r => r.post.id).Nodup)
    (hpipe : ∀ p ∈ db.posts, ('|' ∉ p.created_at.data) ∧ ('|' ∉ p.id.data)) :
    ∀ i (h : i < (feedSorted db).length),
      (feedSorted db).filter
          (cursorKeep (encodeCursor ((feedSorted db).get ⟨i, h⟩))) =
        (feedSorted db).drop (i + 1) := by
  intro i h
  have hp := feedSorted_pipe_free db hpipe _ ((feedSorted db).get_mem i h)
  rw [List.filter_congr fun r _ => cursorKeep_encode _ hp.1 hp.2 r]
  exact filter_lt_key_drop _ (feedSorted_strict db hids) i h

theorem feedWalk_flatten (db : DB) (limit : Nat) (hL : 1 ≤ limit)
    (hids : ((joinedRows db).map fun r => r.post.id).Nodup)
    (hpipe : ∀ p ∈ db.posts, ('|' ∉ p.created_at.data) ∧ ('|' ∉ p.id.data)) :
    ∀ fuel k cursor, (feedSorted db).length - k < fuel → k ≤ (feedSorted db).length →
      feedQueryRows db none none cursor limit = ((feedSorted db).drop k).take limit →
      (feedWalk db limit fuel cursor).flatten = (feedSorted db).drop k := by
  intro fuel
  induction fuel with
  | zero => intro k cursor hf _ _; exact absurd hf (Nat.not_lt_zero _)
  | succ fuel ih =>
    intro k cursor hf hk hpage
    have hw : feedWalk db limit (fuel + 1) cursor =
        (feedQueryRows db none none cursor limit) ::
          (match nextCursorOf (feedQueryRows db none none cursor limit) limit with
            | none => []
            | some c => feedWalk db limit fuel (some c)) := rfl
    have hlenS : ((feedSorted db).drop k).length = (feedSorted db).length - k :=
      List.length_drop k (feedSorted db)
    by_cases hc : ((feedSorted db).drop k).length < limit
    · have hpage2 : feedQueryRows db none none cursor limit = (feedSorted db).drop k := by
        rw [hpage]
        exact List.take_of_length_le (le_of_lt hc)
      have hnext : nextCursorOf (feedQueryRows db none none cursor limit) limit = none := by
        unfold nextCursorOf
        rw [if_neg]
        rintro ⟨hl1, _⟩
        rw [hpage2] at hl1
        omega
      rw [hw, hnext, hpage2]
      show (((feedSorted db).drop k) :: ([] : List (List FeedRow))).flatten = _
      simp
    · have hlim2 : limit ≤ ((feedSorted db).drop k).length := le_of_not_lt hc
      have hplen : (feedQueryRows db none none cursor limit).length = limit := by
        rw [hpage, List.length_take]
        exact min_eq_left hlim2
      have hj : k + (limit - 1) < (feedSorted db).length := by omega
      have hlast : (feedQueryRows db none none cursor limit).getLast? =
          some ((feedSorted db).get ⟨k + (limit - 1), hj⟩) := by
        rw [hpage, List.getLast?_eq_getElem?, List.length_take, hlenS,
          min_eq_left (by omega : limit ≤ (feedSorted db).length - k),
          List.getElem?_take, if_pos (by omega : limit - 1 < limit),
          List.getElem?_drop, List.getElem?_eq_getElem
            (by omega : k + (limit - 1) < (feedSorted db).length)]
        rfl
      have hnext : nextCursorOf (feedQueryRows db none none cursor limit) limit =
          some (encodeCursor ((feedSorted db).get ⟨k + (limit - 1), hj⟩)) := by
        unfold nextCursorOf
        rw [if_pos ⟨hplen, by omega⟩, hlast]
        rfl
      have hstep : k + (limit - 1) + 1 = k + limit := by omega
      have hrec : feedQueryRows db none none
          (some (encodeCursor ((feedSorted db).get ⟨k + (limit - 1), hj⟩))) limit =
          ((feedSorted db).drop (k + limit)).take limit := by
        rw [feedQueryRows_cursor_eq db limit _ hids,
          feedPage_at_index db hids hpipe _ hj, hstep]
      rw [hw, hnext]
      show ((feedQueryRows db none none cursor limit) ::
          feedWalk db limit fuel
            (some (encodeCursor ((feedSorted db).get ⟨k + (limit - 1), hj⟩)))).flatten = _
      rw [List.flatten_cons, ih (k + limit) _ (by omega) (by omega) hrec, hpage,
        show (feedSorted db).drop (k + limit) = ((feedSorted db).drop k).drop limit by
          rw [List.drop_drop]]
      exact List.take_append_drop limit ((feedSorted db).drop k)

theorem pairwise_disjoint_of_flatten_nodup {α β : Type} (f : α → β) :
    ∀ (ll : List (List α)), ((ll.flatten.map f)).Nodup →
      List.Pairwise (fun p q => ∀ a ∈ p, ∀ b ∈ q, f a ≠ f b) ll := by
  intro ll
  induction ll with
  | nil => intro _; exact List.Pairwise.nil
  | cons p rest ih =>
    intro h
    rw [List.flatten_cons, List.map_append, List.nodup_append] at h
    obtain ⟨h1, h2, h3⟩ := h
    constructor
    · intro q hq a ha b hb heq
      have hbm : f b ∈ (rest.flatten).map f :=
        List.mem_map_of_mem f (List.mem_flatten.mpr ⟨q, hq, hb⟩)
      exact h3 (List.mem_map_of_mem f ha) (heq ▸ hbm)
    · exact ih h2

/-- C1.  Keyset continuation is exact: over the eligible rows totally ordered
by (created_at DESC, id DESC) with distinct post ids, the WHERE clause of a
page fetched with the cursor of position i retains exactly the rows strictly
after that position (the page being its first limit rows); consequently
walking the feed by following nextCursor reproduces, by concatenation, the
full ordering with no omissions, and no post id appears on two different
pages — in particular not on two consecutive ones. -/
theorem c1_keyset_pagination (db : DB) (limit : Nat)
    (hL : 1 ≤ limit)
    (hids : ((joinedRows db).map fun r => r.post.id).Nodup)
    (hpipe : ∀ p ∈ db.posts, ('|' ∉ p.created_at.data) ∧ ('|' ∉ p.id.data)) :
    (∀ i (h : i < (feedSorted db).length),
      (feedSorted db).filter
          (cursorKeep (encodeCursor ((feedSorted db).get ⟨i, h⟩))) =
        (feedSorted db).drop (i + 1) ∧
      feedQueryRows db none none
          (some (encodeCursor ((feedSorted db).get ⟨i, h⟩))) limit =
        ((feedSorted db).drop (i + 1)).take limit) ∧
    (feedAllPages db limit).flatten = feedSorted db ∧
    List.Pairwise (fun p q => ∀ a ∈ p, ∀ b ∈ q, a.post.id ≠ b.post.id)
      (feedAllPages db limit) := by
  have hjoin : (feedAllPages db limit).flatten = feedSorted db := by
    unfold feedAllPages
    have h0 := feedWalk_flatten db limit hL hids hpipe
      ((feedSorted db).length + 1) 0 none (by omega) (by omega)
      (by rw [feedQueryRows_none_eq, List.drop_zero])
    rw [h0, List.drop_zero]
  refine ⟨?_, hjoin, ?_⟩
  · intro i h
    refine ⟨feedPage_at_index db hids hpipe i h, ?_⟩
    rw [feedQueryRows_cursor_eq db limit _ hids, feedPage_at_index db hids hpipe i h]
  · apply pairwise_disjoint_of_flatten_nodup
    rw [hjoin]
    exact sortRows_ids_nodup (((List.filter_sublist _).map _).nodup hids)

/-- C1, witness: five eligible posts paged three at a time — the walked pages
concatenate back to the full ordering, and the page at the cursor of the third
row is exactly the remaining two rows. -/
theorem c1_witness :
    (feedAllPages dbFive 3).flatten = feedSorted dbFive ∧
      feedQueryRows dbFive none none
          (some (encodeCursor ((feedSorted dbFive).get ⟨2, by decide⟩))) 3 =
        ((feedSorted dbFive).drop 3).take 3 := by
  have h := c1_keyset_pagination dbFive 3 (by decide) (by decide) (by decide)
  exact ⟨h.2.1, (h.1 2 (by decide)).2⟩

end Musio

